import Mathlib

/-!
Verification development for the `supply_chain_sim` package
(`src/supply_chain_sim/demand.py`, `simulation.py`, `network.py`).

The Python code is shallowly embedded as follows.

* Numpy's global pseudorandom stream (`np.random`) is modelled by
  `NPRandomState`: an infinite stream of rationals together with a read
  position.  `np.random.seed(seed)` resets the state to a stream determined
  by the seed; the family of seeded streams is an explicit parameter
  (`ℕ → ℕ → ℚ`) so theorems quantify over every possible stream family.
  `np.random.normal(mean, std, size)` consumes `size` values `z` of the
  current stream and yields `mean + std * z`; a negative `size` raises
  `ValueError` (mapped to `PyErr.validation`), exactly as numpy does.
* Floating point numbers are modelled by `ℚ` (exact arithmetic); the
  confidence-interval computation, which takes a genuine square root, is
  modelled over `ℝ` with `Real.sqrt`.
* Python exceptions are modelled by the `Except PyErr` monad.  The error
  taxonomy of the specification maps `ValueError` raised by argument
  validation to `PyErr.validation`, the `ValueError` of `add_node` on a
  duplicate id to `PyErr.duplicateNode`, `networkx.NetworkXNoPath` to
  `PyErr.noPath`, `networkx.NodeNotFound` to `PyErr.nodeNotFound` and
  Python `TypeError` to `PyErr.typeError`.
-/

/-- Python exception kinds relevant to the embedded code, named after the
specification's error taxonomy. -/
inductive PyErr where
  | validation
  | duplicateNode
  | noPath
  | nodeNotFound
  | typeError
  | keyError
deriving DecidableEq, Repr

deriving instance DecidableEq for Except

/-- The state of numpy's global random stream: an infinite stream of draws
and the current read position.  `np.random.normal` hands out consecutive
stream values. -/
structure NPRandomState where
  stream : ℕ → ℚ
  pos : ℕ

/-- `np.random.seed seed`: resets the global stream to the stream determined
by `seed` (the family `cs` of seeded streams is an explicit model
parameter) and rewinds the position to 0. -/
def npSeed (cs : ℕ → ℕ → ℚ) (seed : ℕ) : NPRandomState :=
  ⟨cs seed, 0⟩

/-- `np.random.normal(mean, std_dev, size)`: consumes `size` consecutive
stream draws `z` and returns `mean + std_dev * z` for each.  Numpy raises
`ValueError` ("negative dimensions are not allowed") when `size` is
negative. -/
def npNormal (mean std_dev : ℚ) (size : ℤ) (s : NPRandomState) :
    Except PyErr (List ℚ × NPRandomState) :=
  if size < 0 then .error .validation
  else
    .ok (((List.range size.toNat).map fun i => mean + std_dev * s.stream (s.pos + i)),
      ⟨s.stream, s.pos + size.toNat⟩)

/-- `DemandGenerator.__init__` stores `mean` and `std_dev` on the object
(`demand.py`, lines 9-13). -/
structure DemandGenerator where
  mean : ℚ
  std_dev : ℚ
deriving DecidableEq, Repr

/-- `DemandGenerator(mean, std_dev, seed)`:  records `mean` and `std_dev`;
when `seed` is not `None` it calls `np.random.seed(seed)`, mutating the
single global stream (`demand.py`, lines 9-13). -/
def dgInit (mean std_dev : ℚ) (seed : Option ℕ) (cs : ℕ → ℕ → ℚ) (s : NPRandomState) :
    DemandGenerator × NPRandomState :=
  (⟨mean, std_dev⟩, match seed with
    | some sd => npSeed cs sd
    | none => s)

/-- Elementwise `np.maximum(x, 0)`: the maximum of a value and zero,
written as a conditional so that it evaluates by kernel reduction. -/
def clamp0 (x : ℚ) : ℚ :=
  if x < 0 then 0 else x

/-- `DemandGenerator.generate_daily_demand(days)` (`demand.py`, lines 15-17):
draws `days` normal samples and clamps each below at zero via
`np.maximum(demand, 0)`.  There is no validation of `days` in the code;
only numpy's own negative-size `ValueError` can occur. -/
def generate_daily_demand (g : DemandGenerator) (days : ℤ) (s : NPRandomState) :
    Except PyErr (List ℚ × NPRandomState) :=
  (npNormal g.mean g.std_dev days s).map fun p => (p.1.map clamp0, p.2)

/-- `np.mean` of a list, as exact rational arithmetic (the empty-list case,
where numpy produces NaN, is never exercised by the theorems below). -/
def listMean (xs : List ℚ) : ℚ :=
  xs.sum / xs.length

/-- `DemandGenerator.calculate_safety_stock(coverage_days, demand_history, days)`
(`demand.py`, lines 19-22): if `demand_history` is `None` it generates
`days or 30` days of demand (Python's `or` also maps an explicit `days=0`
to 30), then returns `coverage_days * np.mean(demand_history)`.  The code
performs no validation of `coverage_days`. -/
def calculate_safety_stock (g : DemandGenerator) (coverage_days : ℚ)
    (demand_history : Option (List ℚ)) (days : Option ℤ) (s : NPRandomState) :
    Except PyErr (ℚ × NPRandomState) :=
  match demand_history with
  | some h => .ok (coverage_days * listMean h, s)
  | none =>
      let d : ℤ := match days with
        | none => 30
        | some d => if d = 0 then 30 else d
      (generate_daily_demand g d s).map fun p => (coverage_days * listMean p.1, p.2)

/-- One row of the simulation result table: fields `lead_time`,
`safety_stock`, `iteration` (`simulation.py`, lines 56-60). -/
structure ResultRow where
  lead_time : ℤ
  safety_stock : ℚ
  iteration : ℕ
deriving DecidableEq, Repr

/-- `MonteCarloSimulation` object state: the demand generator and the
iteration count (`simulation.py`, lines 32-36). -/
structure MonteCarloSimulation where
  demand_generator : DemandGenerator
  iterations : ℕ
deriving DecidableEq, Repr

/-- `MonteCarloSimulation.__init__(demand_generator, iterations, seed)`
(`simulation.py`, lines 12-36): `ValueError` when `iterations <= 0`,
otherwise stores the generator and iteration count and, when `seed` is not
`None`, reseeds the global stream. -/
def mcInit (g : DemandGenerator) (iterations : ℤ) (seed : Option ℕ)
    (cs : ℕ → ℕ → ℚ) (s : NPRandomState) :
    Except PyErr (MonteCarloSimulation × NPRandomState) :=
  if iterations ≤ 0 then .error .validation
  else
    .ok (⟨g, iterations.toNat⟩, match seed with
      | some sd => npSeed cs sd
      | none => s)

/-- Inner loop of `simulate_safety_stock` (`simulation.py`, lines 50-60):
for each `lead_time` computes `effective_coverage = coverage_days + lead_time`
and calls `calculate_safety_stock` with the iteration's shared demand
history, appending one result row. -/
def innerLoop (g : DemandGenerator) (coverage_days : ℚ) (demand : List ℚ)
    (iteration : ℕ) (lead_times : List ℤ) (s : NPRandomState) :
    Except PyErr (List ResultRow × NPRandomState) :=
  match lead_times with
  | [] => .ok ([], s)
  | lt :: rest => do
      let p ← calculate_safety_stock g (coverage_days + lt) (some demand) none s
      let q ← innerLoop g coverage_days demand iteration rest p.2
      .ok (⟨lt, p.1, iteration⟩ :: q.1, q.2)

/-- Outer loop of `simulate_safety_stock` (`simulation.py`, lines 45-60):
`k` iterations remain and `i` is the index of the next iteration; each
iteration first draws one shared demand history of length
`simulation_days`, then runs the inner loop over all lead times. -/
def outerLoop (g : DemandGenerator) (coverage_days : ℚ) (simulation_days : ℤ)
    (lead_times : List ℤ) : ℕ → ℕ → NPRandomState →
    Except PyErr (List ResultRow × NPRandomState)
  | 0, _, s => .ok ([], s)
  | k + 1, i, s => do
      let d ← generate_daily_demand g simulation_days s
      let r ← innerLoop g coverage_days d.1 i lead_times d.2
      let rest ← outerLoop g coverage_days simulation_days lead_times k (i + 1) r.2
      .ok (r.1 ++ rest.1, rest.2)

/-- `MonteCarloSimulation.simulate_safety_stock(coverage_days,
simulation_days, lead_times)` (`simulation.py`, lines 38-63).  The code has
no validation of `lead_times`: the loops simply run over whatever list is
given. -/
def simulate_safety_stock (sim : MonteCarloSimulation) (coverage_days : ℚ)
    (simulation_days : ℤ) (lead_times : List ℤ) (s : NPRandomState) :
    Except PyErr (List ResultRow × NPRandomState) :=
  outerLoop sim.demand_generator coverage_days simulation_days lead_times
    sim.iterations 0 s

/-- The demand history drawn in iteration `i` of a run starting from state
`s` with `days` samples per iteration: clamped normal draws taken from
stream positions `s.pos + days * i, …, s.pos + days * i + days - 1`. -/
def demandSlice (g : DemandGenerator) (s : NPRandomState) (days i : ℕ) : List ℚ :=
  (List.range days).map fun j => clamp0 (g.mean + g.std_dev * s.stream (s.pos + days * i + j))

/-- A concrete stream family used by witness theorems: seed `sd` yields the
stream `i ↦ sd + i`. -/
def demoStreams : ℕ → ℕ → ℚ :=
  fun sd i => (sd : ℚ) + i

/-- A concrete random state used by witness theorems. -/
def demoState : NPRandomState :=
  ⟨fun i => (i : ℚ), 0⟩

/-- `InventoryPolicy` data (`network.py`, lines 10-24); its `__post_init__`
validation is not exercised by the embedded operations. -/
structure InventoryPolicy where
  coverage_days : ℚ
  reorder_point : ℚ
  order_quantity : ℚ
deriving DecidableEq, Repr

/-- `SupplyChainNode` object state (`network.py`, lines 26-62): identifier,
type tag, optional demand generator and policy, inventory level and pending
orders as (quantity, arrival_time) pairs. -/
structure SupplyChainNode where
  node_id : String
  node_type : String
  demand_generator : Option DemandGenerator
  inventory_policy : Option InventoryPolicy
  inventory_level : ℚ
  pending_orders : List (ℚ × ℚ)
deriving DecidableEq, Repr

/-- Attribute dictionary stored on a graph edge by `add_edge`
(`network.py`, lines 140-145): both the `lead_time` and the `capacity` key
are always present; an omitted capacity is stored as `None`. -/
structure EdgeData where
  lead_time : ℚ
  capacity : Option ℚ
deriving DecidableEq, Repr

/-- A directed edge of the `networkx.DiGraph` together with its attribute
dictionary. -/
structure Edge where
  src : String
  tgt : String
  data : EdgeData
deriving DecidableEq, Repr

/-- `SupplyChainNetwork` object state (`network.py`, lines 87-93): the
`networkx` digraph (node list with `node_type` attributes plus edge list)
and the `node_id ↦ SupplyChainNode` mapping, both in insertion order. -/
structure SupplyChainNetwork where
  nodes : List (String × SupplyChainNode)
  graphNodes : List (String × String)
  edges : List Edge
deriving DecidableEq, Repr

/-- Python `dict` lookup on an association list. -/
def assocFind (l : List (String × SupplyChainNode)) (k : String) : Option SupplyChainNode :=
  match l with
  | [] => none
  | p :: rest => if p.1 = k then some p.2 else assocFind rest k

/-- The key list of the `nodes` mapping. -/
def nodeKeys (g : SupplyChainNetwork) : List String :=
  g.nodes.map Prod.fst

/-- The node ids of the `networkx` graph. -/
def graphNodeIds (g : SupplyChainNetwork) : List String :=
  g.graphNodes.map Prod.fst

/-- The empty network created by `SupplyChainNetwork.__init__`
(`network.py`, lines 90-93). -/
def emptyNetwork : SupplyChainNetwork :=
  ⟨[], [], []⟩

/-- `SupplyChainNetwork.add_node(node)` (`network.py`, lines 95-112):
`ValueError` (the specification's `DuplicateNodeError`) when the id is
already a key of the node mapping; otherwise inserts into the mapping and
into the graph with the `node_type` attribute. -/
def add_node (g : SupplyChainNetwork) (node : SupplyChainNode) :
    Except PyErr SupplyChainNetwork :=
  if node.node_id ∈ nodeKeys g then .error .duplicateNode
  else
    .ok { g with
      nodes := g.nodes ++ [(node.node_id, node)],
      graphNodes := g.graphNodes ++ [(node.node_id, node.node_type)] }

/-- `networkx.DiGraph.add_edge`: a repeated (source, target) pair overwrites
the existing edge's attribute dictionary in place, otherwise the edge is
appended. -/
def setEdge (es : List Edge) (e : Edge) : List Edge :=
  match es with
  | [] => [e]
  | f :: rest => if f.src = e.src ∧ f.tgt = e.tgt then e :: rest else f :: setEdge rest e

/-- `SupplyChainNetwork.add_edge(source_id, target_id, lead_time, capacity)`
(`network.py`, lines 114-145): `ValueError` when either endpoint is absent
from the node mapping or `lead_time <= 0`; otherwise stores the edge with
both attributes (an omitted capacity is stored as `None`). -/
def add_edge (g : SupplyChainNetwork) (source_id target_id : String)
    (lead_time : ℚ) (capacity : Option ℚ) : Except PyErr SupplyChainNetwork :=
  if source_id ∉ nodeKeys g then .error .validation
  else if target_id ∉ nodeKeys g then .error .validation
  else if lead_time ≤ 0 then .error .validation
  else .ok { g with edges := setEdge g.edges ⟨source_id, target_id, ⟨lead_time, capacity⟩⟩ }

/-- All walks with exactly `k` edges from `s` to `t` along the edge list. -/
def walksTo (es : List Edge) (s t : String) : ℕ → List (List String)
  | 0 => if s = t then [[s]] else []
  | k + 1 =>
      (es.filter fun e => e.src = s).flatMap fun e =>
        (walksTo es e.tgt t k).map fun p => s :: p

/-- Iterative-deepening search for a hop-minimal walk: tries `k = start,
start+1, …` while fuel lasts and returns the first walk found. -/
def searchWalk (es : List Edge) (s t : String) : ℕ → ℕ → Option (List String)
  | 0, _ => none
  | fuel + 1, k =>
      match (walksTo es s t k).head? with
      | some p => some p
      | none => searchWalk es s t fuel (k + 1)

/-- Models `networkx.shortest_path(graph, source, target)` with no weight
argument: a breadth-first search that returns a path with the minimum
number of edges, or nothing when the target is unreachable.  Which of
several hop-minimal paths `networkx` returns is an internal detail; this
model fixes one deterministic choice with the same hop-count contract. -/
def shortest_path (g : SupplyChainNetwork) (source_id target_id : String) :
    Option (List String) :=
  searchWalk g.edges source_id target_id ((graphNodeIds g).length + 1) 0

/-- Attribute lookup `graph[a][b]` on the edge list. -/
def edgeLookup (es : List Edge) (a b : String) : Option EdgeData :=
  match es with
  | [] => none
  | e :: rest => if e.src = a ∧ e.tgt = b then some e.data else edgeLookup rest a b

/-- The summation loop of `get_path_lead_time` (`network.py`, lines 169-172):
adds `graph[path[i]][path[i+1]]['lead_time']` over consecutive pairs. -/
def pathSum (es : List Edge) : List String → ℚ
  | a :: b :: rest => ((edgeLookup es a b).map EdgeData.lead_time).getD 0 + pathSum es (b :: rest)
  | _ => 0

/-- `SupplyChainNetwork.get_path_lead_time(source_id, target_id)`
(`network.py`, lines 147-177): `networkx.NodeNotFound` when either id is
missing from the graph (not caught by the method), `NetworkXNoPath` (the
specification's `NoPathError`) when the target is unreachable, otherwise
the sum of `lead_time` along the hop-minimal path `shortest_path` found. -/
def get_path_lead_time (g : SupplyChainNetwork) (source_id target_id : String) :
    Except PyErr ℚ :=
  if source_id ∈ graphNodeIds g then
    if target_id ∈ graphNodeIds g then
      match shortest_path g source_id target_id with
      | some p => .ok (pathSum g.edges p)
      | none => .error .noPath
    else .error .nodeNotFound
  else .error .nodeNotFound

/-- One step of the disruption loop (`network.py`, lines 198-205): finds the
edge `(u, v)` and multiplies its capacity by `factor` in place.  The
`'capacity' in attrs` guard is always true because `add_edge` always stores
the key, so a `None` capacity reaches `None * factor`, Python's
`TypeError`. -/
def updateCapacity (es : List Edge) (u v : String) (factor : ℚ) :
    Except PyErr (List Edge) :=
  match es with
  | [] => .error .keyError
  | e :: rest =>
      if e.src = u ∧ e.tgt = v then
        match e.data.capacity with
        | none => .error .typeError
        | some c => .ok ({ e with data := { e.data with capacity := some (c * factor) } } :: rest)
      else (updateCapacity rest u v factor).map fun es' => e :: es'

/-- The disruption loop over the incident pair list (`network.py`,
lines 198-205): processes each pair in order, mutating capacities. -/
def applyPairs (es : List Edge) (ps : List (String × String)) (factor : ℚ) :
    Except PyErr (List Edge) :=
  match ps with
  | [] => .ok es
  | p :: rest => do
      let es' ← updateCapacity es p.1 p.2 factor
      applyPairs es' rest factor

/-- `SupplyChainNetwork.simulate_disruption(node_id, duration,
capacity_reduction)` (`network.py`, lines 179-205): `ValueError` when the
node is absent or the reduction lies outside `[0, 1]`; otherwise walks the
concatenation `in_edges(node_id) + out_edges(node_id)` (a self-loop appears
in both halves) multiplying each listed edge's capacity by
`1 - capacity_reduction`.  The `duration` argument is never used and
nothing ever restores the capacities. -/
def simulate_disruption (g : SupplyChainNetwork) (node_id : String)
    (duration capacity_reduction : ℚ) : Except PyErr SupplyChainNetwork :=
  if node_id ∉ nodeKeys g then .error .validation
  else if ¬(0 ≤ capacity_reduction ∧ capacity_reduction ≤ 1) then .error .validation
  else
    let pairs := ((g.edges.filter fun e => e.tgt = node_id).map fun e => (e.src, e.tgt))
      ++ ((g.edges.filter fun e => e.src = node_id).map fun e => (e.src, e.tgt))
    (applyPairs g.edges pairs (1 - capacity_reduction)).map fun es => { g with edges := es }

lemma pyBind_ok {α β : Type} (a : α) (f : α → Except PyErr β) :
    ((Except.ok a : Except PyErr α) >>= f) = f a := rfl

lemma flatMap_congr_left {α β : Type} {l : List α} {f g : α → List β}
    (h : ∀ a ∈ l, f a = g a) : l.flatMap f = l.flatMap g := by
  induction l with
  | nil => rfl
  | cons a t ih =>
      simp only [List.flatMap_cons]
      rw [h a (by simp), ih fun x hx => h x (by simp [hx])]

lemma flatMap_range_succ {β : Type} (f : ℕ → List β) (k : ℕ) :
    (List.range (k + 1)).flatMap f = f 0 ++ (List.range k).flatMap fun j => f (j + 1) := by
  rw [List.range_succ_eq_map, List.flatMap_cons, List.flatMap_map]

lemma calculate_safety_stock_some (g : DemandGenerator) (x : ℚ) (h : List ℚ)
    (days : Option ℤ) (s : NPRandomState) :
    calculate_safety_stock g x (some h) days s = .ok (x * listMean h, s) := rfl

lemma innerLoop_spec (g : DemandGenerator) (coverage_days : ℚ) (demand : List ℚ)
    (iteration : ℕ) (lead_times : List ℤ) (s : NPRandomState) :
    innerLoop g coverage_days demand iteration lead_times s =
      .ok (lead_times.map fun lt =>
        ⟨lt, (coverage_days + lt) * listMean demand, iteration⟩, s) := by
  induction lead_times with
  | nil => rfl
  | cons lt rest ih =>
      simp [innerLoop, calculate_safety_stock_some, pyBind_ok, ih]

lemma generate_daily_demand_spec (g : DemandGenerator) (days : ℤ) (hd : 0 ≤ days)
    (s : NPRandomState) :
    generate_daily_demand g days s =
      .ok (demandSlice g s days.toNat 0, ⟨s.stream, s.pos + days.toNat⟩) := by
  have hneg : ¬ days < 0 := not_lt.mpr hd
  simp only [generate_daily_demand, npNormal, hneg, if_false, Except.map, demandSlice,
    List.map_map]
  refine congrArg _ (congrArg (fun l => (l, _)) ?_)
  refine List.map_congr_left fun j _ => ?_
  simp [Nat.mul_zero, Nat.add_zero, Function.comp]

lemma demandSlice_shift (g : DemandGenerator) (s : NPRandomState) (d i : ℕ) :
    demandSlice g ⟨s.stream, s.pos + d⟩ d i = demandSlice g s d (i + 1) := by
  refine List.map_congr_left fun j _ => ?_
  have : s.pos + d + d * i + j = s.pos + d * (i + 1) + j := by ring
  simp [this]

lemma outerLoop_spec (g : DemandGenerator) (coverage_days : ℚ) (simulation_days : ℤ)
    (lead_times : List ℤ) (hd : 0 ≤ simulation_days) (k i : ℕ) (s : NPRandomState) :
    outerLoop g coverage_days simulation_days lead_times k i s =
      .ok ((List.range k).flatMap fun j => lead_times.map fun lt =>
          ⟨lt, (coverage_days + lt) *
            listMean (demandSlice g s simulation_days.toNat j), i + j⟩,
        ⟨s.stream, s.pos + simulation_days.toNat * k⟩) := by
  induction k generalizing i s with
  | zero => simp [outerLoop]
  | succ k ih =>
      simp only [outerLoop, generate_daily_demand_spec g simulation_days hd s,
        pyBind_ok, innerLoop_spec, ih]
      rw [flatMap_range_succ]
      congr 1
      congr 1
      · congr 1
        refine flatMap_congr_left fun j _ => ?_
        rw [demandSlice_shift]
        refine List.map_congr_left fun lt _ => ?_
        have h1 : i + 1 + j = i + (j + 1) := by omega
        rw [h1]
      · show NPRandomState.mk _ _ = NPRandomState.mk _ _
        have h2 : s.pos + simulation_days.toNat + simulation_days.toNat * k =
            s.pos + simulation_days.toNat * (k + 1) := by ring
        rw [h2]

/-- C1: for every `MonteCarloSimulation` with positive `iterations` and every
call of `simulate_safety_stock` with non-empty `lead_times` (and a genuine,
positive number of simulation days), the call succeeds and returns exactly
one row per (iteration, lead_time) pair — `iterations * lead_times.length`
rows in total; iteration `i` draws the single shared demand history
`demandSlice … i` once, and every row of that iteration has
`safety_stock = (coverage_days + lead_time) * listMean` of that shared
history. -/
theorem simulate_safety_stock_spec (sim : MonteCarloSimulation) (coverage_days : ℚ)
    (simulation_days : ℤ) (lead_times : List ℤ) (s : NPRandomState)
    (hiter : 0 < sim.iterations) (hlead : lead_times ≠ [])
    (hdays : 0 < simulation_days) :
    simulate_safety_stock sim coverage_days simulation_days lead_times s =
      .ok ((List.range sim.iterations).flatMap fun i => lead_times.map fun lt =>
          ⟨lt, (coverage_days + lt) *
            listMean (demandSlice sim.demand_generator s simulation_days.toNat i), i⟩,
        ⟨s.stream, s.pos + simulation_days.toNat * sim.iterations⟩) ∧
    ((List.range sim.iterations).flatMap fun i => lead_times.map fun lt =>
        (⟨lt, (coverage_days + lt) *
          listMean (demandSlice sim.demand_generator s simulation_days.toNat i), i⟩ :
          ResultRow)).length = sim.iterations * lead_times.length := by
  constructor
  · have h := outerLoop_spec sim.demand_generator coverage_days simulation_days lead_times
      (le_of_lt hdays) sim.iterations 0 s
    simpa [simulate_safety_stock] using h
  · simp [List.length_flatMap, Function.comp_def, List.map_const', mul_comm]

/-- Witness for C1 at a concrete simulation: 2 iterations, lead times
`[1, 2]`, 3 simulation days, the demo stream. -/
theorem simulate_safety_stock_spec_witness :
    (0 < (⟨⟨100, 20⟩, 2⟩ : MonteCarloSimulation).iterations ∧
      ([1, 2] : List ℤ) ≠ [] ∧ (0 : ℤ) < 3) ∧
    (simulate_safety_stock ⟨⟨100, 20⟩, 2⟩ 7 3 [1, 2] demoState =
      .ok ((List.range 2).flatMap fun i => ([1, 2] : List ℤ).map fun lt =>
          ⟨lt, (7 + lt) * listMean (demandSlice ⟨100, 20⟩ demoState 3 i), i⟩,
        ⟨demoState.stream, demoState.pos + 3 * 2⟩) ∧
      ((List.range 2).flatMap fun i => ([1, 2] : List ℤ).map fun lt =>
        (⟨lt, (7 + lt) * listMean (demandSlice ⟨100, 20⟩ demoState 3 i), i⟩ :
          ResultRow)).length = 2 * 2) :=
  ⟨⟨by decide, by decide, by decide⟩,
    simulate_safety_stock_spec ⟨⟨100, 20⟩, 2⟩ 7 3 [1, 2] demoState
      (by decide) (by decide) (by decide)⟩

/-- C4: the code contradicts the claim (and `tests/test_demand.py`) at
`days = 0`: `np.random.normal(mean, std, 0)` returns an empty array, so
`generate_daily_demand(0)` succeeds with an empty sequence instead of
raising `ValidationError`.  (Only negative `days` raise, via numpy's own
`ValueError`.) -/
theorem generate_daily_demand_zero_days :
    generate_daily_demand ⟨100, 20⟩ 0 demoState = .ok ([], demoState) ∧
    generate_daily_demand ⟨100, 20⟩ 0 demoState ≠ .error .validation := by
  exact ⟨rfl, by simp [generate_daily_demand, npNormal, Except.map]⟩

/-- C5: the code contradicts the claim (and `tests/test_demand.py`) for
non-positive `coverage_days`: `calculate_safety_stock(coverage_days=-1,
days=30)` succeeds and returns `-390` (for the demo stream) instead of
raising `ValidationError`.  The claim's other conjuncts hold: third
conjunct shows an explicit `demand_history` takes precedence over a
supplied `days`, with result exactly `coverage_days * mean(history)`. -/
theorem calculate_safety_stock_negative_coverage :
    calculate_safety_stock ⟨100, 20⟩ (-1) (some [100, 110, 90, 95, 105]) none demoState =
      .ok (-100, demoState) ∧
    calculate_safety_stock ⟨100, 20⟩ (-1) none (some 30) demoState ≠
      .error .validation ∧
    calculate_safety_stock ⟨100, 20⟩ 7 (some [100, 110, 90, 95, 105]) (some 999)
      demoState = .ok (7 * listMean [100, 110, 90, 95, 105], demoState) := by
  refine ⟨?_, ?_, rfl⟩
  · rw [calculate_safety_stock_some]
    norm_num [listMean]
  · simp [calculate_safety_stock, generate_daily_demand, npNormal, Except.map]

/-- C6: the code contradicts the claim (and `tests/test_simulation.py`):
`simulate_safety_stock` performs no validation of `lead_times`.  The empty
list yields an empty result table (not `ValidationError`), and a negative
lead time `-1` yields ordinary rows computed with effective coverage
`coverage_days - 1`. -/
theorem simulate_safety_stock_empty_lead_times :
    (simulate_safety_stock ⟨⟨100, 20⟩, 2⟩ 7 30 [] demoState).map Prod.fst = .ok [] ∧
    (simulate_safety_stock ⟨⟨100, 20⟩, 2⟩ 7 30 [] demoState).map Prod.fst ≠
      .error .validation ∧
    (simulate_safety_stock ⟨⟨100, 20⟩, 2⟩ 7 30 [-1] demoState).map Prod.fst =
      .ok [⟨-1, 6 * listMean (demandSlice ⟨100, 20⟩ demoState 30 0), 0⟩,
        ⟨-1, 6 * listMean (demandSlice ⟨100, 20⟩ demoState 30 1), 1⟩] := by
  have h0 : (0 : ℤ) ≤ 30 := by decide
  have he := outerLoop_spec ⟨100, 20⟩ 7 30 [] h0 2 0 demoState
  have hn := outerLoop_spec ⟨100, 20⟩ 7 30 [-1] h0 2 0 demoState
  refine ⟨?_, ?_, ?_⟩
  · rw [show simulate_safety_stock ⟨⟨100, 20⟩, 2⟩ 7 30 [] demoState =
      outerLoop ⟨100, 20⟩ 7 30 [] 2 0 demoState from rfl, he]
    simp [Except.map]
  · rw [show simulate_safety_stock ⟨⟨100, 20⟩, 2⟩ 7 30 [] demoState =
      outerLoop ⟨100, 20⟩ 7 30 [] 2 0 demoState from rfl, he]
    simp [Except.map]
  · rw [show simulate_safety_stock ⟨⟨100, 20⟩, 2⟩ 7 30 [-1] demoState =
      outerLoop ⟨100, 20⟩ 7 30 [-1] 2 0 demoState from rfl, hn]
    have hr2 : List.range 2 = [0, 1] := by decide
    simp only [hr2, Except.map, List.flatMap_cons, List.flatMap_nil, List.map_cons,
      List.map_nil, List.append_nil, List.cons_append, List.nil_append]
    norm_num [Int.toNat_ofNat]
    exact ⟨rfl, rfl⟩

/-- The construct-then-generate schedule: build a `DemandGenerator` (seeding
the global stream when a seed is given) and immediately draw `days` demand
values; returns the drawn sequence and the stream state left behind. -/
def constructThenGenerate (mean std_dev : ℚ) (seed : Option ℕ) (cs : ℕ → ℕ → ℚ)
    (days : ℤ) (s : NPRandomState) : Except PyErr (List ℚ) × NPRandomState :=
  let p := dgInit mean std_dev seed cs s
  match generate_daily_demand p.1 days p.2 with
  | .ok q => (.ok q.1, q.2)
  | .error e => (.error e, p.2)

/-- The interleaved schedule of C8's counterexample: construct both
generators first (each construction reseeds the single global stream),
then let each generate in turn. -/
def interleavedRuns (mean std_dev : ℚ) (seed : Option ℕ) (cs : ℕ → ℕ → ℚ)
    (days : ℤ) (s : NPRandomState) : Except PyErr (List ℚ) × Except PyErr (List ℚ) :=
  let p1 := dgInit mean std_dev seed cs s
  let p2 := dgInit mean std_dev seed cs p1.2
  match generate_daily_demand p1.1 days p2.2 with
  | .ok q => (.ok q.1, (generate_daily_demand p2.1 days q.2).map Prod.fst)
  | .error e => (.error e, (generate_daily_demand p2.1 days p2.2).map Prod.fst)

/-- C8 counterexample: with seed 0, demo streams, mean 0 and std 1, two
identically constructed generators produce `[0]` and `[1]` under the
interleaving construct₁ · construct₂ · generate₁ · generate₂ — the claim's
"regardless of how the construction and generation are interleaved" fails,
because both constructions reseed the one global stream and the second
generation continues where the first stopped. -/
theorem seeded_generators_interleaving_cex :
    (interleavedRuns 0 1 (some 0) demoStreams 1 demoState).1 = .ok [0] ∧
    (interleavedRuns 0 1 (some 0) demoStreams 1 demoState).2 = .ok [1] ∧
    (Except.ok [(0 : ℚ)] : Except PyErr (List ℚ)) ≠ .ok [1] := by
  refine ⟨?_, ?_, by simp⟩ <;>
    norm_num [interleavedRuns, dgInit, npSeed, generate_daily_demand, npNormal,
      Except.map, demoStreams, clamp0, List.range_succ, List.range_zero, Function.comp]

/-- C8 (amended): two `DemandGenerator` instances constructed with identical
`(mean, std_dev, some seed)` produce identical demand sequences whenever
each instance's generation immediately follows its own construction with no
intervening draws on the global stream — for every stream family, every
day count and every starting stream state, the second construct-generate
run reproduces the first exactly. -/
theorem seeded_generators_sequential_det (mean std_dev : ℚ) (seed : ℕ)
    (cs : ℕ → ℕ → ℚ) (days : ℤ) (s₀ : NPRandomState) :
    (constructThenGenerate mean std_dev (some seed) cs days s₀).1 =
      (constructThenGenerate mean std_dev (some seed) cs days
        (constructThenGenerate mean std_dev (some seed) cs days s₀).2).1 := rfl

/-- C7: validation-first atomicity of the network mutators.  `add_node` on a
present id fails with `DuplicateNodeError`, returning no modified network
(in this pure embedding an error carries no state, and in the source both
checks precede every mutation, so the node mapping, the graph — in
particular the node count — and the edges are exactly as before); on a
fresh id its entire effect is the stated insertion.  `add_edge` fails with
`ValidationError` exactly when an endpoint is missing or `lead_time ≤ 0`,
again before any mutation; otherwise its entire effect is the stated edge
update. -/
theorem add_ops_atomic (g : SupplyChainNetwork) (n : SupplyChainNode)
    (s t : String) (lt : ℚ) (cap : Option ℚ) :
    (n.node_id ∈ nodeKeys g → add_node g n = .error .duplicateNode) ∧
    (n.node_id ∉ nodeKeys g → add_node g n = .ok { g with
        nodes := g.nodes ++ [(n.node_id, n)],
        graphNodes := g.graphNodes ++ [(n.node_id, n.node_type)] }) ∧
    ((s ∉ nodeKeys g ∨ t ∉ nodeKeys g ∨ lt ≤ 0) →
      add_edge g s t lt cap = .error .validation) ∧
    (s ∈ nodeKeys g → t ∈ nodeKeys g → 0 < lt →
      add_edge g s t lt cap = .ok { g with
        edges := setEdge g.edges ⟨s, t, ⟨lt, cap⟩⟩ }) := by
  refine ⟨fun h => ?_, fun h => ?_, fun h => ?_, fun hs ht hl => ?_⟩
  · simp [add_node, h]
  · simp [add_node, h]
  · rcases h with h | h | h
    · simp [add_edge, h]
    · by_cases hs : s ∈ nodeKeys g <;> simp [add_edge, hs, h]
    · by_cases hs : s ∈ nodeKeys g <;> by_cases ht : t ∈ nodeKeys g <;>
        simp [add_edge, hs, ht, h]
  · simp [add_edge, hs, ht, not_le.mpr hl]

/-- A minimal demo node used by network witnesses. -/
def demoNodeA : SupplyChainNode :=
  ⟨"A", "supplier", none, none, 0, []⟩

/-- A second demo node used by network witnesses. -/
def demoNodeB : SupplyChainNode :=
  ⟨"B", "dc", none, none, 0, []⟩

/-- A demo network holding only node `A`. -/
def demoNetA : SupplyChainNetwork :=
  ⟨[("A", demoNodeA)], [("A", "supplier")], []⟩

/-- A demo network holding nodes `A` and `B` and no edges. -/
def demoNetAB : SupplyChainNetwork :=
  ⟨[("A", demoNodeA), ("B", demoNodeB)], [("A", "supplier"), ("B", "dc")], []⟩

/-- Witness for C7: re-adding `A` fails with `DuplicateNodeError`; adding the
fresh `B` succeeds with exactly the stated insertion; an edge to the absent
`Z` fails with `ValidationError`; a valid edge insertion succeeds with
exactly the stated edge list. -/
theorem add_ops_atomic_witness :
    add_node demoNetA demoNodeA = .error .duplicateNode ∧
    add_node demoNetA demoNodeB = .ok { demoNetA with
      nodes := demoNetA.nodes ++ [("B", demoNodeB)],
      graphNodes := demoNetA.graphNodes ++ [("B", "dc")] } ∧
    add_edge demoNetA "A" "Z" 1 none = .error .validation ∧
    add_edge demoNetAB "A" "B" 2 none = .ok { demoNetAB with
      edges := setEdge demoNetAB.edges ⟨"A", "B", ⟨2, none⟩⟩ } :=
  ⟨(add_ops_atomic demoNetA demoNodeA "A" "Z" 1 none).1 (by decide),
    (add_ops_atomic demoNetA demoNodeB "A" "Z" 1 none).2.1 (by decide),
    (add_ops_atomic demoNetA demoNodeA "A" "Z" 1 none).2.2.1
      (Or.inr (Or.inl (by decide))),
    (add_ops_atomic demoNetAB demoNodeA "A" "B" 2 none).2.2.2
      (by decide) (by decide) (by norm_num)⟩

/-- The (source, target) key of a graph edge. -/
def edgeKey (e : Edge) : String × String :=
  (e.src, e.tgt)

/-- A `networkx.DiGraph` stores at most one edge per ordered node pair
(`setEdge` overwrites), so the edge keys of a graph built through the
network operations are pairwise distinct. -/
def keysNodup (es : List Edge) : Prop :=
  (es.map edgeKey).Nodup

instance (es : List Edge) : Decidable (keysNodup es) :=
  inferInstanceAs (Decidable (es.map edgeKey).Nodup)

/-- One in-place capacity derating: `capacity *= factor`. -/
def scaleEdge (factor : ℚ) (e : Edge) : Edge :=
  { e with data := { e.data with capacity := e.data.capacity.map fun c => c * factor } }

/-- Derate the capacity once when the edge enters `node_id`. -/
def scaleIfTgt (node_id : String) (factor : ℚ) (e : Edge) : Edge :=
  if e.tgt = node_id then scaleEdge factor e else e

/-- Derate the capacity once when the edge leaves `node_id`. -/
def scaleIfSrc (node_id : String) (factor : ℚ) (e : Edge) : Edge :=
  if e.src = node_id then scaleEdge factor e else e

lemma edgeKey_scaleEdge (factor : ℚ) (e : Edge) :
    edgeKey (scaleEdge factor e) = edgeKey e := rfl

lemma updateCapacity_found_some (u v : String) (f : ℚ) :
    ∀ es : List Edge, keysNodup es → ∀ e₀ ∈ es, edgeKey e₀ = (u, v) →
    ∀ c, e₀.data.capacity = some c →
    updateCapacity es u v f =
      .ok (es.map fun e => if edgeKey e = (u, v) then scaleEdge f e else e) := by
  intro es
  induction es with
  | nil => intro _ e₀ he; cases he
  | cons e rest ih =>
      intro hnd e₀ he₀ hk c hc
      have hnd' : keysNodup rest := (List.nodup_cons.mp hnd).2
      have hknot : edgeKey e ∉ rest.map edgeKey := (List.nodup_cons.mp hnd).1
      by_cases hey : e.src = u ∧ e.tgt = v
      · have hkeye : edgeKey e = (u, v) := by simp [edgeKey, hey.1, hey.2]
        have hee : e₀ = e := by
          rcases List.mem_cons.mp he₀ with h | h
          · exact h
          · exact absurd (List.mem_map.mpr ⟨e₀, h, hk.trans hkeye.symm⟩) hknot
        subst hee
        have hrest : (rest.map fun x => if edgeKey x = (u, v) then scaleEdge f x else x)
            = rest := by
          have hid : ∀ x ∈ rest, (if edgeKey x = (u, v) then scaleEdge f x else x) = x := by
            intro x hx
            have hne : edgeKey x ≠ (u, v) := fun hcon =>
              hknot (List.mem_map.mpr ⟨x, hx, hcon.trans hkeye.symm⟩)
            simp [hne]
          rw [List.map_congr_left hid]
          exact List.map_id rest
        rw [List.map_cons, hrest, if_pos hkeye]
        simp [updateCapacity, hey, hc, scaleEdge]
      · have hkeyne : edgeKey e ≠ (u, v) := by
          intro hcon
          exact hey ⟨congrArg Prod.fst hcon, congrArg Prod.snd hcon⟩
        have he₀r : e₀ ∈ rest := by
          rcases List.mem_cons.mp he₀ with h | h
          · exact absurd (h ▸ hk) hkeyne
          · exact h
        have hr := ih hnd' e₀ he₀r hk c hc
        simp [updateCapacity, hey, hr, Except.map, hkeyne]

lemma updateCapacity_found_none (u v : String) (f : ℚ) :
    ∀ es : List Edge, keysNodup es → ∀ e₀ ∈ es, edgeKey e₀ = (u, v) →
    e₀.data.capacity = none →
    updateCapacity es u v f = .error .typeError := by
  intro es
  induction es with
  | nil => intro _ e₀ he; cases he
  | cons e rest ih =>
      intro hnd e₀ he₀ hk hc
      have hnd' : keysNodup rest := (List.nodup_cons.mp hnd).2
      have hknot : edgeKey e ∉ rest.map edgeKey := (List.nodup_cons.mp hnd).1
      by_cases hey : e.src = u ∧ e.tgt = v
      · have hkeye : edgeKey e = (u, v) := by simp [edgeKey, hey.1, hey.2]
        have hee : e₀ = e := by
          rcases List.mem_cons.mp he₀ with h | h
          · exact h
          · exact absurd (List.mem_map.mpr ⟨e₀, h, hk.trans hkeye.symm⟩) hknot
        subst hee
        simp [updateCapacity, hey, hc]
      · have hkeyne : edgeKey e ≠ (u, v) := by
          intro hcon
          exact hey ⟨congrArg Prod.fst hcon, congrArg Prod.snd hcon⟩
        have he₀r : e₀ ∈ rest := by
          rcases List.mem_cons.mp he₀ with h | h
          · exact absurd (h ▸ hk) hkeyne
          · exact h
        have hr := ih hnd' e₀ he₀r hk hc
        simp [updateCapacity, hey, hr, Except.map]

lemma applyPairs_append (f : ℚ) :
    ∀ (ps qs : List (String × String)) (es : List Edge),
    applyPairs es (ps ++ qs) f =
      (applyPairs es ps f) >>= fun es' => applyPairs es' qs f := by
  intro ps
  induction ps with
  | nil => intro qs es; rfl
  | cons p rest ih =>
      intro qs es
      simp only [List.cons_append, applyPairs]
      cases updateCapacity es p.1 p.2 f with
      | error e => rfl
      | ok es' => simpa using ih qs es'

lemma updateCapacity_pair_some (q : String × String) (f : ℚ) (es : List Edge)
    (hnd : keysNodup es) (e₀ : Edge) (he₀ : e₀ ∈ es) (hk : edgeKey e₀ = q)
    (c : ℚ) (hc : e₀.data.capacity = some c) :
    updateCapacity es q.1 q.2 f =
      .ok (es.map fun e => if edgeKey e = q then scaleEdge f e else e) := by
  have h := updateCapacity_found_some q.1 q.2 f es hnd e₀ he₀
    (hk.trans Prod.mk.eta.symm) c hc
  simpa [Prod.mk.eta] using h

lemma updateCapacity_pair_none (q : String × String) (f : ℚ) (es : List Edge)
    (hnd : keysNodup es) (e₀ : Edge) (he₀ : e₀ ∈ es) (hk : edgeKey e₀ = q)
    (hc : e₀.data.capacity = none) :
    updateCapacity es q.1 q.2 f = .error .typeError :=
  updateCapacity_found_none q.1 q.2 f es hnd e₀ he₀ (hk.trans Prod.mk.eta.symm) hc

lemma scaled_keys (q : String × String) (f : ℚ) (es : List Edge) :
    (es.map fun e => if edgeKey e = q then scaleEdge f e else e).map edgeKey =
      es.map edgeKey := by
  rw [List.map_map]
  refine List.map_congr_left fun e _ => ?_
  by_cases h : edgeKey e = q <;> simp [Function.comp, h, edgeKey_scaleEdge]

lemma applyPairs_distinct_spec (f : ℚ) :
    ∀ (ps : List (String × String)) (es : List Edge),
    keysNodup es → ps.Nodup →
    (∀ q ∈ ps, ∃ e ∈ es, edgeKey e = q ∧ ∃ c, e.data.capacity = some c) →
    applyPairs es ps f =
      .ok (es.map fun e => if edgeKey e ∈ ps then scaleEdge f e else e) := by
  intro ps
  induction ps with
  | nil =>
      intro es _ _ _
      have hid : ∀ x ∈ es, (if edgeKey x ∈ ([] : List (String × String))
          then scaleEdge f x else x) = x := by
        intro x _; simp
      simp only [applyPairs]
      exact congrArg Except.ok
        ((List.map_congr_left hid).trans (List.map_id' es)).symm
  | cons q rest ih =>
      intro es hnd hps hpresent
      obtain ⟨e₀, he₀, hk₀, c₀, hc₀⟩ := hpresent q (by simp)
      have hqrest : q ∉ rest := (List.nodup_cons.mp hps).1
      have hrestnd : rest.Nodup := (List.nodup_cons.mp hps).2
      have hstep := updateCapacity_pair_some q f es hnd e₀ he₀ hk₀ c₀ hc₀
      have hnd₁ : keysNodup (es.map fun e =>
          if edgeKey e = q then scaleEdge f e else e) := by
        unfold keysNodup
        rw [scaled_keys]; exact hnd
      have hpresent₁ : ∀ q' ∈ rest, ∃ e ∈ (es.map fun e =>
          if edgeKey e = q then scaleEdge f e else e),
          edgeKey e = q' ∧ ∃ c, e.data.capacity = some c := by
        intro q' hq'
        obtain ⟨e', he', hk', c', hc'⟩ := hpresent q' (by simp [hq'])
        have hne : edgeKey e' ≠ q := by
          intro hcon
          rw [← hk'] at hq'
          rw [hcon] at hq'
          exact hqrest hq'
        refine ⟨e', ?_, hk', c', hc'⟩
        have hfix : (if edgeKey e' = q then scaleEdge f e' else e') = e' := by
          simp [hne]
        exact List.mem_map.mpr ⟨e', he', hfix⟩
      have hrec := ih _ hnd₁ hrestnd hpresent₁
      have hcomp : ((es.map fun e => if edgeKey e = q then scaleEdge f e else e).map
            fun e => if edgeKey e ∈ rest then scaleEdge f e else e) =
          es.map fun e => if edgeKey e ∈ q :: rest then scaleEdge f e else e := by
        rw [List.map_map]
        refine List.map_congr_left fun e _ => ?_
        by_cases hq : edgeKey e = q
        · simp [Function.comp, hq, edgeKey_scaleEdge, hqrest]
        · by_cases hrm : edgeKey e ∈ rest <;>
            simp [Function.comp, hq, hrm]
      simp only [applyPairs, hstep, pyBind_ok, hrec, hcomp]

lemma applyPairs_has_none_error (f : ℚ) :
    ∀ (ps : List (String × String)) (es : List Edge),
    keysNodup es →
    (∀ q ∈ ps, ∃ e ∈ es, edgeKey e = q) →
    (∃ q ∈ ps, ∃ e ∈ es, edgeKey e = q ∧ e.data.capacity = none) →
    applyPairs es ps f = .error .typeError := by
  intro ps
  induction ps with
  | nil =>
      intro es _ _ hex
      obtain ⟨q, hq, -⟩ := hex
      cases hq
  | cons q rest ih =>
      intro es hnd hpresent hex
      obtain ⟨e₀, he₀, hk₀⟩ := hpresent q (by simp)
      cases hc : e₀.data.capacity with
      | none =>
          have hstep := updateCapacity_pair_none q f es hnd e₀ he₀ hk₀ hc
          simp only [applyPairs, hstep]
          rfl
      | some c =>
          have hstep := updateCapacity_pair_some q f es hnd e₀ he₀ hk₀ c hc
          have hnd₁ : keysNodup (es.map fun e =>
              if edgeKey e = q then scaleEdge f e else e) := by
            unfold keysNodup
            rw [scaled_keys]; exact hnd
          have hpresent₁ : ∀ q' ∈ rest, ∃ e ∈ (es.map fun e =>
              if edgeKey e = q then scaleEdge f e else e), edgeKey e = q' := by
            intro q' hq'
            obtain ⟨e', he', hk'⟩ := hpresent q' (by simp [hq'])
            by_cases hne : edgeKey e' = q
            · refine ⟨scaleEdge f e', List.mem_map.mpr ⟨e', he', by simp [hne]⟩, ?_⟩
              rw [edgeKey_scaleEdge]; exact hk'
            · exact ⟨e', List.mem_map.mpr ⟨e', he', by simp [hne]⟩, hk'⟩
          have hex₁ : ∃ q' ∈ rest, ∃ e ∈ (es.map fun e =>
              if edgeKey e = q then scaleEdge f e else e),
              edgeKey e = q' ∧ e.data.capacity = none := by
            obtain ⟨q', hq', e', he', hk', hc'⟩ := hex
            have hq'rest : q' ∈ rest := by
              rcases List.mem_cons.mp hq' with h | h
              · exfalso
                subst h
                have : e' = e₀ := List.inj_on_of_nodup_map hnd he' he₀ (hk'.trans hk₀.symm)
                rw [this, hc] at hc'
                cases hc'
              · exact h
            have hne : edgeKey e' ≠ q := by
              intro hcon
              have : e' = e₀ := List.inj_on_of_nodup_map hnd he' he₀ (hcon.trans hk₀.symm)
              rw [this, hc] at hc'
              cases hc'
            exact ⟨q', hq'rest, e',
              List.mem_map.mpr ⟨e', he', by simp [hne]⟩, hk', hc'⟩
          have hrec := ih _ hnd₁ hpresent₁ hex₁
          simp only [applyPairs, hstep, pyBind_ok, hrec]

lemma applyPairs_filter_spec (es : List Edge) (p : Edge → Bool) (f : ℚ)
    (hnd : keysNodup es)
    (hsome : ∀ e ∈ es, p e = true → ∃ c, e.data.capacity = some c) :
    applyPairs es ((es.filter p).map edgeKey) f =
      .ok (es.map fun e => if p e = true then scaleEdge f e else e) := by
  have hnodup : ((es.filter p).map edgeKey).Nodup :=
    ((List.filter_sublist es).map edgeKey).nodup hnd
  have hpresent : ∀ q ∈ (es.filter p).map edgeKey,
      ∃ e ∈ es, edgeKey e = q ∧ ∃ c, e.data.capacity = some c := by
    intro q hq
    obtain ⟨e', he', hk'⟩ := List.mem_map.mp hq
    exact ⟨e', List.mem_of_mem_filter he', hk',
      hsome e' (List.mem_of_mem_filter he') (List.of_mem_filter he')⟩
  rw [applyPairs_distinct_spec f _ es hnd hnodup hpresent]
  refine congrArg Except.ok (List.map_congr_left fun e he => ?_)
  by_cases hp : p e = true
  · have : edgeKey e ∈ (es.filter p).map edgeKey :=
      List.mem_map.mpr ⟨e, List.mem_filter.mpr ⟨he, hp⟩, rfl⟩
    simp [this, hp]
  · have : edgeKey e ∉ (es.filter p).map edgeKey := by
      intro hcon
      obtain ⟨e', he', hk'⟩ := List.mem_map.mp hcon
      have : e' = e := List.inj_on_of_nodup_map hnd
        (List.mem_of_mem_filter he') he hk'
      rw [this] at he'
      exact hp (List.of_mem_filter he')
    simp [this, hp]

lemma keys_map_of_preserve (es : List Edge) (h : Edge → Edge)
    (hk : ∀ e, edgeKey (h e) = edgeKey e) :
    (es.map h).map edgeKey = es.map edgeKey := by
  rw [List.map_map]
  exact List.map_congr_left fun e _ => hk e

lemma filter_map_keys (es : List Edge) (h : Edge → Edge) (p : Edge → Bool)
    (hk : ∀ e, edgeKey (h e) = edgeKey e) (hp : ∀ e, p (h e) = p e) :
    ((es.map h).filter p).map edgeKey = (es.filter p).map edgeKey := by
  rw [List.filter_map, List.map_map]
  have hph : p ∘ h = p := funext hp
  rw [hph]
  exact List.map_congr_left fun e _ => hk e

lemma disruption_edges_spec (node_id : String) (f : ℚ) (es : List Edge)
    (hnd : keysNodup es)
    (hcap : ∀ e ∈ es, (e.src = node_id ∨ e.tgt = node_id) → e.data.capacity ≠ none) :
    applyPairs es
      (((es.filter fun e => e.tgt = node_id).map fun e => (e.src, e.tgt))
        ++ ((es.filter fun e => e.src = node_id).map fun e => (e.src, e.tgt))) f =
      .ok (es.map fun e => scaleIfSrc node_id f (scaleIfTgt node_id f e)) := by
  have hek : (fun e : Edge => (e.src, e.tgt)) = edgeKey := rfl
  rw [hek, applyPairs_append]
  have hsome_t : ∀ e ∈ es, (decide (e.tgt = node_id)) = true →
      ∃ c, e.data.capacity = some c := by
    intro e he hp
    cases hc : e.data.capacity with
    | none => exact absurd hc (hcap e he (Or.inr (by simpa using hp)))
    | some c => exact ⟨c, rfl⟩
  rw [applyPairs_filter_spec es _ f hnd hsome_t, pyBind_ok]
  have hkey_pres : ∀ e : Edge,
      edgeKey (if decide (e.tgt = node_id) = true then scaleEdge f e else e) = edgeKey e := by
    intro e
    by_cases h : decide (e.tgt = node_id) = true <;> simp [h, edgeKey_scaleEdge]
  have hsrc_pres : ∀ e : Edge,
      (decide ((if decide (e.tgt = node_id) = true then scaleEdge f e else e).src
        = node_id)) = decide (e.src = node_id) := by
    intro e
    by_cases h : decide (e.tgt = node_id) = true <;> simp [h, scaleEdge]
  have hpairs₂ : ((es.filter fun e => e.src = node_id).map edgeKey) =
      (((es.map fun e => if decide (e.tgt = node_id) = true then scaleEdge f e else e).filter
        fun e => e.src = node_id).map edgeKey) :=
    (filter_map_keys es _ _ hkey_pres hsrc_pres).symm
  rw [hpairs₂]
  have hnd₁ : keysNodup (es.map fun e =>
      if decide (e.tgt = node_id) = true then scaleEdge f e else e) := by
    unfold keysNodup
    rw [keys_map_of_preserve es _ hkey_pres]
    exact hnd
  have hsome_s : ∀ e₁ ∈ (es.map fun e =>
      if decide (e.tgt = node_id) = true then scaleEdge f e else e),
      (decide (e₁.src = node_id)) = true → ∃ c, e₁.data.capacity = some c := by
    intro e₁ he₁ hp
    obtain ⟨e, he, hmap⟩ := List.mem_map.mp he₁
    obtain ⟨c, hc⟩ : ∃ c, e.data.capacity = some c := by
      have hsrc : e.src = node_id := by
        have := (hsrc_pres e).symm.trans (hmap ▸ hp)
        simpa using this.symm
      cases hc : e.data.capacity with
      | none => exact absurd hc (hcap e he (Or.inl hsrc))
      | some c => exact ⟨c, rfl⟩
    subst hmap
    by_cases h : decide (e.tgt = node_id) = true
    · exact ⟨c * f, by simp [h, scaleEdge, hc]⟩
    · exact ⟨c, by simp [h, hc]⟩
  rw [applyPairs_filter_spec _ _ f hnd₁ hsome_s]
  refine congrArg Except.ok ?_
  rw [List.map_map]
  refine List.map_congr_left fun e _ => ?_
  simp only [Function.comp, scaleIfSrc, scaleIfTgt]
  by_cases ht : e.tgt = node_id <;>
    by_cases hs : e.src = node_id <;>
      simp [ht, hs, scaleEdge]

lemma edgeLookup_setEdge (es : List Edge) (e : Edge) :
    edgeLookup (setEdge es e) e.src e.tgt = some e.data := by
  induction es with
  | nil => simp [setEdge, edgeLookup]
  | cons f rest ih =>
      by_cases h : f.src = e.src ∧ f.tgt = e.tgt
      · simp [setEdge, h, edgeLookup]
      · simp [setEdge, h, edgeLookup, ih]

/-- C3 (amended): `simulate_disruption` fails with `ValidationError` when the
node is absent or the reduction lies outside `[0, 1]`; when it validates and
every incident edge carries a numeric capacity, each edge's capacity is
multiplied by `(1 - capacity_reduction)` once per incidence — edges incident
in a single direction once, and a self-loop (which appears in both the
incoming and the outgoing edge list) twice; all other edge data, all
non-incident edges and the node structures are unchanged.  The final
conjunct shows `duration` has no effect at all, and since the returned
network is the whole effect, nothing ever restores the capacities. -/
theorem simulate_disruption_spec (g : SupplyChainNetwork) (node_id : String)
    (d₁ d₂ cr : ℚ) :
    (node_id ∉ nodeKeys g → simulate_disruption g node_id d₁ cr = .error .validation) ∧
    (¬(0 ≤ cr ∧ cr ≤ 1) → simulate_disruption g node_id d₁ cr = .error .validation) ∧
    (node_id ∈ nodeKeys g → 0 ≤ cr → cr ≤ 1 → keysNodup g.edges →
      (∀ e ∈ g.edges, (e.src = node_id ∨ e.tgt = node_id) → e.data.capacity ≠ none) →
      simulate_disruption g node_id d₁ cr =
        .ok { g with edges := g.edges.map (fun e => scaleIfSrc node_id (1 - cr) (scaleIfTgt node_id (1 - cr) e)) }) ∧
    simulate_disruption g node_id d₁ cr = simulate_disruption g node_id d₂ cr := by
  refine ⟨fun h => ?_, fun h => ?_, fun hm h0 h1 hnd hcap => ?_, rfl⟩
  · simp [simulate_disruption, h]
  · by_cases hm : node_id ∈ nodeKeys g <;> simp [simulate_disruption, hm, h]
  · have hok : ¬¬(0 ≤ cr ∧ cr ≤ 1) := not_not.mpr ⟨h0, h1⟩
    simp only [simulate_disruption, hm, not_true_eq_false, if_false, hok,
      disruption_edges_spec node_id (1 - cr) g.edges hnd hcap, Except.map]

/-- A demo network with node `A` and a self-loop `A → A` of capacity 100. -/
def demoNetLoop : SupplyChainNetwork :=
  ⟨[("A", demoNodeA)], [("A", "supplier")], [⟨"A", "A", ⟨1, some 100⟩⟩]⟩

/-- C3 counterexample: on a self-loop of capacity 100, a disruption with
`capacity_reduction = 1/2` leaves capacity 25, not the 50 that a single
multiplication by `(1 - capacity_reduction)` would give — the loop over
`in_edges + out_edges` visits a self-loop twice. -/
theorem simulate_disruption_self_loop_cex :
    (simulate_disruption demoNetLoop "A" 5 (1/2)).map
      (fun g' => g'.edges.map fun e => e.data.capacity) = .ok [some 25] ∧
    some (25 : ℚ) ≠ some 50 := by
  constructor
  · have hnd : keysNodup demoNetLoop.edges := by decide
    have hcap : ∀ e ∈ demoNetLoop.edges, (e.src = "A" ∨ e.tgt = "A") →
        e.data.capacity ≠ none := by decide
    have h := disruption_edges_spec "A" (1 - 1/2) demoNetLoop.edges hnd hcap
    have hmem : ("A" : String) ∈ nodeKeys demoNetLoop := by decide
    have hok : ¬¬((0:ℚ) ≤ 1/2 ∧ (1:ℚ)/2 ≤ 1) := by norm_num
    simp only [simulate_disruption, hmem, not_true_eq_false, if_false, hok, h, Except.map]
    refine congrArg Except.ok ?_
    simp only [demoNetLoop, List.map_cons, List.map_nil, scaleIfSrc, scaleIfTgt, scaleEdge]
    norm_num
  · norm_num

/-- Witness for C3 at concrete networks: a missing node and an out-of-range
reduction fail with `ValidationError`; on `demoNetLoop` with reduction 1/2
the self-loop is derated twice; and the result with `duration = 5` equals
the result with `duration = 9`. -/
theorem simulate_disruption_spec_witness :
    simulate_disruption demoNetAB "Z" 5 (1/2) = .error .validation ∧
    simulate_disruption demoNetLoop "A" 5 2 = .error .validation ∧
    simulate_disruption demoNetLoop "A" 5 (1/2) =
      .ok { demoNetLoop with edges := demoNetLoop.edges.map (fun e => scaleIfSrc "A" (1 - 1/2) (scaleIfTgt "A" (1 - 1/2) e)) } ∧
    simulate_disruption demoNetLoop "A" 5 (1/2) = simulate_disruption demoNetLoop "A" 9 (1/2) :=
  ⟨(simulate_disruption_spec demoNetAB "Z" 5 9 (1/2)).1 (by decide),
    (simulate_disruption_spec demoNetLoop "A" 5 9 2).2.1 (by norm_num),
    (simulate_disruption_spec demoNetLoop "A" 5 9 (1/2)).2.2.1 (by decide)
      (by norm_num) (by norm_num) (by decide) (by decide),
    (simulate_disruption_spec demoNetLoop "A" 5 9 (1/2)).2.2.2⟩

/-- C10: `add_edge` always stores the `capacity` attribute, `None` when the
argument is omitted (first conjunct: the stored edge data is exactly
`(lead_time, None)`); consequently `simulate_disruption` on a node with an
incident `None`-capacity edge does not complete normally: the derating loop,
guarded only by the presence of the `capacity` key (always present),
evaluates `None * (1 - capacity_reduction)` and raises a `TypeError`
outside the documented error taxonomy — such edges are not skipped. -/
theorem disruption_none_capacity_type_error (g : SupplyChainNetwork)
    (node_id : String) (d cr : ℚ) (g' : SupplyChainNetwork)
    (s t : String) (ltq : ℚ)
    (hm : node_id ∈ nodeKeys g) (h0 : 0 ≤ cr) (h1 : cr ≤ 1)
    (hnd : keysNodup g.edges)
    (hnone : ∃ e ∈ g.edges, (e.src = node_id ∨ e.tgt = node_id) ∧
      e.data.capacity = none) :
    (add_edge g s t ltq none = .ok g' →
      edgeLookup g'.edges s t = some ⟨ltq, none⟩) ∧
    simulate_disruption g node_id d cr = .error .typeError := by
  constructor
  · intro h
    by_cases hs : s ∈ nodeKeys g
    · by_cases ht : t ∈ nodeKeys g
      · by_cases hl : ltq ≤ 0
        · simp [add_edge, hs, ht, hl] at h
        · simp only [add_edge, hs, ht, hl, not_true_eq_false, if_false, if_true,
            not_false_eq_true, Except.ok.injEq] at h
          rw [← h]
          exact edgeLookup_setEdge g.edges ⟨s, t, ⟨ltq, none⟩⟩
      · simp [add_edge, hs, ht] at h
    · simp [add_edge, hs] at h
  · have hok : ¬¬(0 ≤ cr ∧ cr ≤ 1) := not_not.mpr ⟨h0, h1⟩
    have hek : (fun e : Edge => (e.src, e.tgt)) = edgeKey := rfl
    simp only [simulate_disruption, hm, not_true_eq_false, if_false, hok, hek]
    by_cases htgt : ∃ e ∈ g.edges, e.tgt = node_id ∧ e.data.capacity = none
    · obtain ⟨e₀, he₀, ht₀, hc₀⟩ := htgt
      have herr := applyPairs_has_none_error (1 - cr)
        ((g.edges.filter fun e => e.tgt = node_id).map edgeKey) g.edges hnd
        (by
          intro q hq
          obtain ⟨e', he', hk'⟩ := List.mem_map.mp hq
          exact ⟨e', List.mem_of_mem_filter he', hk'⟩)
        ⟨edgeKey e₀, List.mem_map.mpr ⟨e₀, List.mem_filter.mpr
            ⟨he₀, by simpa using ht₀⟩, rfl⟩,
          e₀, he₀, rfl, hc₀⟩
      rw [applyPairs_append, herr]
      rfl
    · push_neg at htgt
      have hsome_t : ∀ e ∈ g.edges, (decide (e.tgt = node_id)) = true →
          ∃ c, e.data.capacity = some c := by
        intro e he hp
        cases hc : e.data.capacity with
        | none => exact absurd hc (htgt e he (by simpa using hp))
        | some c => exact ⟨c, rfl⟩
      rw [applyPairs_append, applyPairs_filter_spec g.edges _ (1 - cr) hnd hsome_t,
        pyBind_ok]
      obtain ⟨e₀, he₀, hinc, hc₀⟩ := hnone
      have hsrc₀ : e₀.src = node_id := by
        rcases hinc with h | h
        · exact h
        · exact absurd hc₀ (by
            intro hcon
            exact absurd hcon ((fun hh => by
              exact absurd (htgt e₀ he₀ h) (by simp [hh])) hcon))
      have hnt₀ : ¬(decide (e₀.tgt = node_id) = true) := by
        intro hcon
        exact absurd hc₀ (by
          have := htgt e₀ he₀ (by simpa using hcon)
          simp [this])
      have hfix : (if decide (e₀.tgt = node_id) = true then scaleEdge (1 - cr) e₀ else e₀)
          = e₀ := by simp [hnt₀]
      have hkey_pres : ∀ e : Edge,
          edgeKey (if decide (e.tgt = node_id) = true then scaleEdge (1 - cr) e else e) =
            edgeKey e := by
        intro e
        by_cases h : decide (e.tgt = node_id) = true <;> simp [h, edgeKey_scaleEdge]
      have hsrc_pres : ∀ e : Edge,
          (decide ((if decide (e.tgt = node_id) = true then scaleEdge (1 - cr) e else e).src
            = node_id)) = decide (e.src = node_id) := by
        intro e
        by_cases h : decide (e.tgt = node_id) = true <;> simp [h, scaleEdge]
      have hpairs₂ : ((g.edges.filter fun e => e.src = node_id).map edgeKey) =
          (((g.edges.map fun e => if decide (e.tgt = node_id) = true
            then scaleEdge (1 - cr) e else e).filter
            fun e => e.src = node_id).map edgeKey) :=
        (filter_map_keys g.edges _ _ hkey_pres hsrc_pres).symm
      rw [hpairs₂]
      have hnd₁ : keysNodup (g.edges.map fun e =>
          if decide (e.tgt = node_id) = true then scaleEdge (1 - cr) e else e) := by
        unfold keysNodup
        rw [keys_map_of_preserve g.edges _ hkey_pres]
        exact hnd
      have herr₂ := applyPairs_has_none_error (1 - cr)
        (((g.edges.map fun e => if decide (e.tgt = node_id) = true
          then scaleEdge (1 - cr) e else e).filter fun e => e.src = node_id).map edgeKey)
        (g.edges.map fun e => if decide (e.tgt = node_id) = true
          then scaleEdge (1 - cr) e else e) hnd₁
        (by
          intro q hq
          obtain ⟨e', he', hk'⟩ := List.mem_map.mp hq
          exact ⟨e', List.mem_of_mem_filter he', hk'⟩)
        ⟨edgeKey e₀, ?_, e₀, ?_, rfl, hc₀⟩
      · rw [herr₂]
        rfl
      · refine List.mem_map.mpr ⟨e₀, List.mem_filter.mpr ⟨?_, ?_⟩, rfl⟩
        · exact List.mem_map.mpr ⟨e₀, he₀, hfix⟩
        · simp [hsrc₀]
      · exact List.mem_map.mpr ⟨e₀, he₀, hfix⟩

/-- A demo network with nodes `A`, `B` and an edge `A → B` added without a
capacity (stored capacity `None`). -/
def demoNetEdgeNone : SupplyChainNetwork :=
  ⟨[("A", demoNodeA), ("B", demoNodeB)], [("A", "supplier"), ("B", "dc")],
    [⟨"A", "B", ⟨1, none⟩⟩]⟩

/-- Witness for C10: on `demoNetEdgeNone` (edge `A → B` with capacity `None`)
a validating disruption at `A` raises `TypeError`; re-adding an edge with
omitted capacity stores exactly `(lead_time, None)`. -/
theorem disruption_none_capacity_type_error_witness :
    (("A" : String) ∈ nodeKeys demoNetEdgeNone ∧ (0 : ℚ) ≤ 1/2 ∧ (1 : ℚ)/2 ≤ 1 ∧
      keysNodup demoNetEdgeNone.edges ∧
      ∃ e ∈ demoNetEdgeNone.edges, (e.src = "A" ∨ e.tgt = "A") ∧
        e.data.capacity = none) ∧
    ((add_edge demoNetEdgeNone "A" "B" 3 none =
        .ok { demoNetEdgeNone with edges := setEdge demoNetEdgeNone.edges ⟨"A", "B", ⟨3, none⟩⟩ } →
      edgeLookup (setEdge demoNetEdgeNone.edges ⟨"A", "B", ⟨3, none⟩⟩) "A" "B" =
        some ⟨3, none⟩) ∧
      simulate_disruption demoNetEdgeNone "A" 7 (1/2) = .error .typeError) :=
  ⟨⟨by decide, by norm_num, by norm_num, by decide, by decide⟩,
    disruption_none_capacity_type_error demoNetEdgeNone "A" 7 (1/2)
      { demoNetEdgeNone with edges := setEdge demoNetEdgeNone.edges ⟨"A", "B", ⟨3, none⟩⟩ }
      "A" "B" 3 (by decide) (by norm_num) (by norm_num) (by decide) (by decide)⟩

/-- The directed graph has an edge from `a` to `b`. -/
def hasEdgeB (es : List Edge) (a b : String) : Prop :=
  ∃ e ∈ es, e.src = a ∧ e.tgt = b

/-- Well-formedness maintained by the network operations: every edge joins
two existing graph nodes. -/
def NetWF (g : SupplyChainNetwork) : Prop :=
  ∀ e ∈ g.edges, e.src ∈ graphNodeIds g ∧ e.tgt ∈ graphNodeIds g

instance (g : SupplyChainNetwork) : Decidable (NetWF g) :=
  inferInstanceAs (Decidable (∀ e ∈ g.edges, _ ∧ _))

/-- `target_id` can be reached from `source_id` along the directed edges. -/
def Reachable (es : List Edge) (s t : String) : Prop :=
  ∃ k, walksTo es s t k ≠ []

lemma walksTo_char (es : List Edge) (t : String) :
    ∀ (k : ℕ) (s : String) (p : List String),
    p ∈ walksTo es s t k ↔
      (p.length = k + 1 ∧ p.head? = some s ∧ p.getLast? = some t ∧
        List.Chain' (hasEdgeB es) p) := by
  intro k
  induction k with
  | zero =>
      intro s p
      by_cases hst : s = t
      · subst hst
        have hw : walksTo es s s 0 = [[s]] := by simp [walksTo]
        rw [hw, List.mem_singleton]
        constructor
        · rintro rfl
          exact ⟨rfl, rfl, rfl, List.chain'_singleton s⟩
        · rintro ⟨hlen, hhead, hlast, -⟩
          cases p with
          | nil => cases hlen
          | cons a q =>
              cases q with
              | nil =>
                  simp only [List.head?_cons, Option.some.injEq] at hhead
                  rw [hhead]
              | cons b q' => simp at hlen
      · have hw : walksTo es s t 0 = [] := by simp [walksTo, hst]
        rw [hw]
        simp only [List.not_mem_nil, false_iff, not_and]
        intro hlen hhead hlast
        cases p with
        | nil => cases hlen
        | cons a q =>
            cases q with
            | nil =>
                simp only [List.head?_cons, Option.some.injEq] at hhead
                simp only [List.getLast?_singleton, Option.some.injEq] at hlast
                exact absurd (by rw [← hhead, hlast]) hst
            | cons b q' => simp at hlen
  | succ k ih =>
      intro s p
      simp only [walksTo, List.mem_flatMap, List.mem_map]
      constructor
      · rintro ⟨e, hef, q, hq, rfl⟩
        have he : e ∈ es := List.mem_of_mem_filter hef
        have hesrc : e.src = s := by simpa using List.of_mem_filter hef
        obtain ⟨hlen, hhead, hlast, hchain⟩ := (ih e.tgt q).mp hq
        refine ⟨by simp [hlen], by simp, ?_, ?_⟩
        · cases q with
          | nil => cases hlen
          | cons b q' => rw [List.getLast?_cons_cons]; exact hlast
        · rw [List.chain'_cons']
          refine ⟨?_, hchain⟩
          intro y hy
          rw [hhead] at hy
          simp only [Option.mem_some_iff] at hy
          exact ⟨e, he, hesrc, by rw [hy]⟩
      · rintro ⟨hlen, hhead, hlast, hchain⟩
        cases p with
        | nil => cases hlen
        | cons a q =>
            have ha : a = s := by simpa using hhead
            subst ha
            cases q with
            | nil => simp at hlen
            | cons b q' =>
                rw [List.chain'_cons'] at hchain
                obtain ⟨hR, hchain'⟩ := hchain
                obtain ⟨e, he, hesrc, hetgt⟩ := hR b (by simp)
                refine ⟨e, List.mem_filter.mpr ⟨he, by simpa using hesrc⟩,
                  b :: q', ?_, rfl⟩
                refine (ih e.tgt (b :: q')).mpr ⟨?_, ?_, ?_, hchain'⟩
                · simpa using hlen
                · simp [hetgt]
                · rw [← hlast, List.getLast?_cons_cons]

lemma walksTo_nodes (es : List Edge) (t : String) :
    ∀ (k : ℕ) (s : String) (p : List String), p ∈ walksTo es s t k →
    ∀ x ∈ p, x = s ∨ ∃ e ∈ es, e.tgt = x := by
  intro k
  induction k with
  | zero =>
      intro s p hp x hx
      by_cases hst : s = t
      · subst hst
        have hw : walksTo es s s 0 = [[s]] := by simp [walksTo]
        rw [hw, List.mem_singleton] at hp
        subst hp
        simp only [List.mem_singleton] at hx
        exact Or.inl hx
      · have hw : walksTo es s t 0 = [] := by simp [walksTo, hst]
        rw [hw] at hp
        cases hp
  | succ k ih =>
      intro s p hp x hx
      simp only [walksTo, List.mem_flatMap, List.mem_map] at hp
      obtain ⟨e, hef, q, hq, rfl⟩ := hp
      rcases List.mem_cons.mp hx with rfl | hxq
      · exact Or.inl rfl
      · rcases ih e.tgt q hq x hxq with rfl | hfound
        · exact Or.inr ⟨e, List.mem_of_mem_filter hef, rfl⟩
        · exact Or.inr hfound

lemma exists_dup_decomp (l : List String) (h : ¬ l.Nodup) :
    ∃ xs u ys zs, l = xs ++ u :: (ys ++ u :: zs) := by
  induction l with
  | nil => exact absurd List.nodup_nil h
  | cons a tl ih =>
      by_cases ha : a ∈ tl
      · obtain ⟨ys, zs, hdec⟩ := List.append_of_mem ha
        exact ⟨[], a, ys, zs, by rw [hdec]; rfl⟩
      · have htl : ¬ tl.Nodup := by
          intro hcon
          exact h (List.nodup_cons.mpr ⟨ha, hcon⟩)
        obtain ⟨xs, u, ys, zs, hdec⟩ := ih htl
        exact ⟨a :: xs, u, ys, zs, by rw [hdec]; rfl⟩

lemma walk_shorten (es : List Edge) (s t : String) (k : ℕ) (p : List String)
    (hp : p ∈ walksTo es s t k) (hnd : ¬ p.Nodup) :
    ∃ k' < k, walksTo es s t k' ≠ [] := by
  obtain ⟨hlen, hhead, hlast, hchain⟩ := (walksTo_char es t k s p).mp hp
  obtain ⟨xs, u, ys, zs, rfl⟩ := exists_dup_decomp p hnd
  have hchain_q : List.Chain' (hasEdgeB es) (xs ++ u :: zs) := by
    have h1 := List.chain'_split.mp hchain
    have h2 : List.Chain' (hasEdgeB es) ((u :: ys) ++ u :: zs) := by
      simpa using h1.2
    have h3 := List.chain'_split.mp h2
    exact List.chain'_split.mpr ⟨h1.1, h3.2⟩
  have hhead_q : (xs ++ u :: zs).head? = some s := by
    rw [List.head?_append, List.head?_cons]
    rw [List.head?_append, List.head?_cons] at hhead
    exact hhead
  have hlast_q : (xs ++ u :: zs).getLast? = some t := by
    have hp' : xs ++ u :: (ys ++ u :: zs) = (xs ++ u :: ys) ++ (u :: zs) := by simp
    rw [hp', List.getLast?_append] at hlast
    rw [List.getLast?_append]
    obtain ⟨w, hw⟩ : ∃ w, (u :: zs).getLast? = some w :=
      ⟨_, List.getLast?_eq_getLast _ (by simp)⟩
    rw [hw, Option.or_some] at hlast ⊢
    exact hlast
  have hlen_q : (xs ++ u :: zs).length = (xs.length + zs.length) + 1 := by
    simp [List.length_append]
    omega
  have hlt : xs.length + zs.length < k := by
    have hlenp : (xs ++ u :: (ys ++ u :: zs)).length =
        xs.length + ys.length + zs.length + 2 := by
      simp [List.length_append]
      omega
    omega
  refine ⟨xs.length + zs.length, hlt, ?_⟩
  exact List.ne_nil_of_mem ((walksTo_char es t _ s _).mpr
    ⟨hlen_q, hhead_q, hlast_q, hchain_q⟩)

lemma reach_bound (g : SupplyChainNetwork) (s t : String)
    (hwf : NetWF g) (hs : s ∈ graphNodeIds g) :
    ∀ k, walksTo g.edges s t k ≠ [] →
    ∃ k' < (graphNodeIds g).length + 1, walksTo g.edges s t k' ≠ [] := by
  intro k
  induction k using Nat.strong_induction_on with
  | _ k ih =>
      intro hk
      obtain ⟨p, hp⟩ := List.exists_mem_of_ne_nil _ hk
      by_cases hnd : p.Nodup
      · have hsub : ∀ x ∈ p, x ∈ graphNodeIds g := by
          intro x hx
          rcases walksTo_nodes g.edges t k s p hp x hx with rfl | ⟨e, he, rfl⟩
          · exact hs
          · exact (hwf e he).2
        have hcard : p.length ≤ (graphNodeIds g).length := by
          calc p.length = p.toFinset.card := (List.toFinset_card_of_nodup hnd).symm
            _ ≤ (graphNodeIds g).toFinset.card := by
                refine Finset.card_le_card ?_
                intro x hx
                rw [List.mem_toFinset] at hx ⊢
                exact hsub x hx
            _ ≤ (graphNodeIds g).length := List.toFinset_card_le _
        have hlenp : p.length = k + 1 := ((walksTo_char g.edges t k s p).mp hp).1
        exact ⟨k, by omega, hk⟩
      · obtain ⟨k', hk', hne⟩ := walk_shorten g.edges s t k p hp hnd
        exact ih k' hk' hne

lemma searchWalk_none (es : List Edge) (s t : String) :
    ∀ (fuel k0 : ℕ), searchWalk es s t fuel k0 = none →
    ∀ j, k0 ≤ j → j < k0 + fuel → walksTo es s t j = [] := by
  intro fuel
  induction fuel with
  | zero => intro k0 _ j h1 h2; omega
  | succ f ih =>
      intro k0 hnone j h1 h2
      cases hcase : (walksTo es s t k0).head? with
      | some p =>
          rw [show searchWalk es s t (f + 1) k0 =
            match (walksTo es s t k0).head? with
            | some p => some p
            | none => searchWalk es s t f (k0 + 1) from rfl, hcase] at hnone
          cases hnone
      | none =>
          rw [show searchWalk es s t (f + 1) k0 =
            match (walksTo es s t k0).head? with
            | some p => some p
            | none => searchWalk es s t f (k0 + 1) from rfl, hcase] at hnone
          by_cases hj : j = k0
          · subst hj
            exact List.head?_eq_none_iff.mp hcase
          · exact ih (k0 + 1) hnone j (by omega) (by omega)

lemma searchWalk_some (es : List Edge) (s t : String) :
    ∀ (fuel k0 : ℕ) (p : List String), searchWalk es s t fuel k0 = some p →
    ∃ j, k0 ≤ j ∧ j < k0 + fuel ∧ p ∈ walksTo es s t j ∧
      ∀ m, k0 ≤ m → m < j → walksTo es s t m = [] := by
  intro fuel
  induction fuel with
  | zero => intro k0 p h; cases h
  | succ f ih =>
      intro k0 p hsome
      cases hcase : (walksTo es s t k0).head? with
      | some q =>
          rw [show searchWalk es s t (f + 1) k0 =
            match (walksTo es s t k0).head? with
            | some p => some p
            | none => searchWalk es s t f (k0 + 1) from rfl, hcase] at hsome
          have hpq : q = p := by injection hsome
          subst hpq
          refine ⟨k0, le_refl k0, by omega, ?_, fun m hm1 hm2 => by omega⟩
          exact List.mem_of_mem_head? hcase
      | none =>
          rw [show searchWalk es s t (f + 1) k0 =
            match (walksTo es s t k0).head? with
            | some p => some p
            | none => searchWalk es s t f (k0 + 1) from rfl, hcase] at hsome
          obtain ⟨j, hj1, hj2, hmem, hmins⟩ := ih (k0 + 1) p hsome
          refine ⟨j, by omega, by omega, hmem, ?_⟩
          intro m hm1 hm2
          by_cases hm : m = k0
          · subst hm
            exact List.head?_eq_none_iff.mp hcase
          · exact hmins m (by omega) hm2

lemma not_reachable_of_search_none (g : SupplyChainNetwork) (s t : String)
    (hwf : NetWF g) (hs : s ∈ graphNodeIds g)
    (hnone : shortest_path g s t = none) : ¬ Reachable g.edges s t := by
  rintro ⟨k, hk⟩
  obtain ⟨k', hk', hne⟩ := reach_bound g s t hwf hs k hk
  exact hne (searchWalk_none g.edges s t ((graphNodeIds g).length + 1) 0 hnone k'
    (by omega) (by omega))

/-- C2: for well-formed networks and node ids present in the graph,
`get_path_lead_time` either returns the sum of the `lead_time` attributes
along some walk from source to target whose edge count is minimal over all
walks (hop-count minimality, not lead-time minimality — ties between
hop-minimal paths are broken by `networkx` internals, so only existence of
such a path is claimed), or, when the target is unreachable, fails with
`NoPathError`. -/
theorem get_path_lead_time_spec (g : SupplyChainNetwork)
    (source_id target_id : String) (hwf : NetWF g)
    (hs : source_id ∈ graphNodeIds g) (ht : target_id ∈ graphNodeIds g) :
    (Reachable g.edges source_id target_id →
      ∃ p k, p ∈ walksTo g.edges source_id target_id k ∧
        (∀ k' p', p' ∈ walksTo g.edges source_id target_id k' → k ≤ k') ∧
        get_path_lead_time g source_id target_id = .ok (pathSum g.edges p)) ∧
    (¬ Reachable g.edges source_id target_id →
      get_path_lead_time g source_id target_id = .error .noPath) := by
  constructor
  · intro hreach
    obtain ⟨k0, hk0⟩ := hreach
    obtain ⟨k1, hk1lt, hk1⟩ := reach_bound g source_id target_id hwf hs k0 hk0
    cases hsp : shortest_path g source_id target_id with
    | none =>
        exact absurd (searchWalk_none g.edges source_id target_id
          ((graphNodeIds g).length + 1) 0 hsp k1 (by omega) (by omega)) hk1
    | some p =>
        obtain ⟨j, -, -, hmem, hmins⟩ :=
          searchWalk_some g.edges source_id target_id _ 0 p hsp
        refine ⟨p, j, hmem, ?_, ?_⟩
        · intro k' p' hp'
          by_contra hlt
          push_neg at hlt
          have hempty : walksTo g.edges source_id target_id k' = [] :=
            hmins k' (by omega) hlt
          rw [hempty] at hp'
          cases hp'
        · simp [get_path_lead_time, hs, ht, hsp]
  · intro hunreach
    cases hsp : shortest_path g source_id target_id with
    | none => simp [get_path_lead_time, hs, ht, hsp]
    | some p =>
        obtain ⟨j, -, -, hmem, -⟩ :=
          searchWalk_some g.edges source_id target_id _ 0 p hsp
        exact absurd ⟨j, List.ne_nil_of_mem hmem⟩ hunreach

/-- A third demo node for the two-hop chain. -/
def demoNodeC : SupplyChainNode :=
  ⟨"C", "retailer", none, none, 0, []⟩

/-- The specification's two-hop chain: `A → B` with lead time 2 and
`B → C` with lead time 1. -/
def demoChain : SupplyChainNetwork :=
  ⟨[("A", demoNodeA), ("B", demoNodeB), ("C", demoNodeC)],
    [("A", "supplier"), ("B", "dc"), ("C", "retailer")],
    [⟨"A", "B", ⟨2, none⟩⟩, ⟨"B", "C", ⟨1, none⟩⟩]⟩

lemma demoChain_lead_time : get_path_lead_time demoChain "A" "C" = .ok 3 := by
  have hsp : shortest_path demoChain "A" "C" = some ["A", "B", "C"] := by decide
  have hA : ("A" : String) ∈ graphNodeIds demoChain := by decide
  have hC : ("C" : String) ∈ graphNodeIds demoChain := by decide
  simp only [get_path_lead_time, hA, hC, if_true, hsp]
  have h1 : ¬(("A" : String) = "B" ∧ ("B" : String) = "C") := by decide
  norm_num [pathSum, edgeLookup, demoChain, h1]

/-- Witness for C2 on the specification's chain: `A → C` is reachable and
the minimal-hop path sums to `2 + 1`; the reverse direction `C → A` is
disconnected and fails with `NoPathError`. -/
theorem get_path_lead_time_spec_witness :
    (NetWF demoChain ∧ ("A" : String) ∈ graphNodeIds demoChain ∧
      ("C" : String) ∈ graphNodeIds demoChain) ∧
    (∃ p k, p ∈ walksTo demoChain.edges "A" "C" k ∧
      (∀ k' p', p' ∈ walksTo demoChain.edges "A" "C" k' → k ≤ k') ∧
      get_path_lead_time demoChain "A" "C" = .ok (pathSum demoChain.edges p)) ∧
    get_path_lead_time demoChain "C" "A" = .error .noPath :=
  ⟨⟨by decide, by decide, by decide⟩,
    (get_path_lead_time_spec demoChain "A" "C" (by decide) (by decide) (by decide)).1
      ⟨2, by decide⟩,
    (get_path_lead_time_spec demoChain "C" "A" (by decide) (by decide) (by decide)).2
      (not_reachable_of_search_none demoChain "C" "A" (by decide) (by decide)
        (by decide))⟩

/-- The group of `safety_stock` values for one lead time: pandas
`results[results['lead_time'] == lead_time]['safety_stock']`
(`simulation.py`, lines 96-99). -/
def groupVals (rows : List ResultRow) (lt : ℤ) : List ℚ :=
  (rows.filter fun r => r.lead_time = lt).map ResultRow.safety_stock

/-- Helper for `pandas.Series.unique()`: keep the first occurrence of each
value, in order of appearance. -/
def uniqueFirstAux (seen : List ℤ) : List ℤ → List ℤ
  | [] => []
  | a :: t => if a ∈ seen then uniqueFirstAux seen t else a :: uniqueFirstAux (a :: seen) t

/-- `simulation_results['lead_time'].unique()`: first occurrences in order
(`simulation.py`, line 95). -/
def uniqueFirst (l : List ℤ) : List ℤ :=
  uniqueFirstAux [] l

/-- The sample variance with `ddof = 1`, the default of `pandas.Series.std()`
(squared); exact rational arithmetic. -/
def sampleVar (xs : List ℚ) : ℚ :=
  (xs.map fun x => (x - listMean xs) ^ 2).sum / ((xs.length : ℚ) - 1)

/-- `Series.std()`: the square root of the sample variance, over ℝ. -/
noncomputable def sampleStd (xs : List ℚ) : ℝ :=
  Real.sqrt ((sampleVar xs : ℚ) : ℝ)

/-- `std_error = lt_data.std() / np.sqrt(len(lt_data))`
(`simulation.py`, line 102). -/
noncomputable def stdError (xs : List ℚ) : ℝ :=
  sampleStd xs / Real.sqrt (xs.length : ℝ)

/-- One interval: `(mean - std_error * 1.96, mean + std_error * 1.96)` with
the hard-coded 1.96 multiplier (`simulation.py`, lines 101-105). -/
noncomputable def ciPair (xs : List ℚ) : ℝ × ℝ :=
  (((listMean xs : ℚ) : ℝ) - stdError xs * 1.96,
    ((listMean xs : ℚ) : ℝ) + stdError xs * 1.96)

/-- `MonteCarloSimulation.calculate_confidence_intervals(simulation_results,
confidence_level)` (`simulation.py`, lines 88-107): one entry per unique
lead time; `confidence_level` is accepted but never used. -/
noncomputable def calculate_confidence_intervals (rows : List ResultRow)
    (confidence_level : ℚ) : List (ℤ × (ℝ × ℝ)) :=
  (uniqueFirst (rows.map ResultRow.lead_time)).map fun lt =>
    (lt, ciPair (groupVals rows lt))

lemma mem_uniqueFirstAux (x : ℤ) :
    ∀ (l seen : List ℤ), x ∈ uniqueFirstAux seen l ↔ (x ∈ l ∧ x ∉ seen) := by
  intro l
  induction l with
  | nil => intro seen; simp [uniqueFirstAux]
  | cons a t ih =>
      intro seen
      by_cases ha : a ∈ seen
      · rw [show uniqueFirstAux seen (a :: t) = uniqueFirstAux seen t from by
          simp [uniqueFirstAux, ha]]
        rw [ih seen]
        constructor
        · rintro ⟨hx, hns⟩
          exact ⟨List.mem_cons_of_mem a hx, hns⟩
        · rintro ⟨hx, hns⟩
          rcases List.mem_cons.mp hx with rfl | hx'
          · exact absurd ha hns
          · exact ⟨hx', hns⟩
      · rw [show uniqueFirstAux seen (a :: t) = a :: uniqueFirstAux (a :: seen) t from by
          simp [uniqueFirstAux, ha]]
        constructor
        · intro hx
          rcases List.mem_cons.mp hx with rfl | hx'
          · exact ⟨List.mem_cons_self x t, ha⟩
          · obtain ⟨hxt, hxs⟩ := (ih (a :: seen)).mp hx'
            exact ⟨List.mem_cons_of_mem a hxt,
              fun hcon => hxs (List.mem_cons_of_mem a hcon)⟩
        · rintro ⟨hx, hns⟩
          rcases List.mem_cons.mp hx with rfl | hx'
          · exact List.mem_cons_self x _
          · by_cases hxa : x = a
            · subst hxa
              exact List.mem_cons_self x _
            · exact List.mem_cons_of_mem a ((ih (a :: seen)).mpr
                ⟨hx', fun hcon => by
                  rcases List.mem_cons.mp hcon with h | h
                  · exact hxa h
                  · exact hns h⟩)

lemma mem_uniqueFirst (x : ℤ) (l : List ℤ) : x ∈ uniqueFirst l ↔ x ∈ l := by
  rw [uniqueFirst, mem_uniqueFirstAux]
  simp

lemma one_lt_length_of_two_mem {a b : ℚ} {xs : List ℚ}
    (ha : a ∈ xs) (hb : b ∈ xs) (hab : a ≠ b) : 2 ≤ xs.length := by
  cases xs with
  | nil => cases ha
  | cons x t =>
      cases t with
      | nil =>
          rw [List.mem_singleton] at ha hb
          exact absurd (ha.trans hb.symm) hab
      | cons y t' => simp [List.length_cons]

lemma sampleVar_pos {xs : List ℚ} {a b : ℚ}
    (ha : a ∈ xs) (hb : b ∈ xs) (hab : a ≠ b) : 0 < sampleVar xs := by
  have hlen : 2 ≤ xs.length := one_lt_length_of_two_mem ha hb hab
  have hden : (0 : ℚ) < (xs.length : ℚ) - 1 := by
    have h2 : (2 : ℚ) ≤ (xs.length : ℚ) := by exact_mod_cast hlen
    linarith
  have hex : ∃ x ∈ xs, x ≠ listMean xs := by
    by_contra hcon
    push_neg at hcon
    exact hab ((hcon a ha).trans (hcon b hb).symm)
  obtain ⟨x, hx, hxne⟩ := hex
  have hterm : 0 < (x - listMean xs) ^ 2 :=
    pow_two_pos_of_ne_zero (sub_ne_zero.mpr hxne)
  have hnonneg : ∀ y ∈ xs.map fun y => (y - listMean xs) ^ 2, 0 ≤ y := by
    intro y hy
    obtain ⟨z, -, rfl⟩ := List.mem_map.mp hy
    exact sq_nonneg _
  have hle : (x - listMean xs) ^ 2 ≤ (xs.map fun y => (y - listMean xs) ^ 2).sum :=
    List.single_le_sum hnonneg _ (List.mem_map.mpr ⟨x, hx, rfl⟩)
  exact div_pos (lt_of_lt_of_le hterm hle) hden

/-- C9 (amended): `calculate_confidence_intervals` ignores
`confidence_level` entirely (first conjunct: any two levels give identical
output); each unique `lead_time` is mapped to the pair
`(mean - 1.96·SE, mean + 1.96·SE)` where `SE` is the group's sample
standard deviation (`ddof = 1`) divided by the square root of the group's
sample count (second conjunct, with the pair written out explicitly); and
`lower < upper` holds for every group containing two distinct safety-stock
values — when all of a group's values coincide the interval degenerates to
`lower = upper` (see the counterexample), so the claim's unconditional
`lower < upper` had to be weakened to that hypothesis. -/
theorem calculate_confidence_intervals_spec (rows : List ResultRow)
    (cl₁ cl₂ : ℚ) (lt : ℤ) (a b : ℚ)
    (ha : a ∈ groupVals rows lt) (hb : b ∈ groupVals rows lt) (hab : a ≠ b) :
    calculate_confidence_intervals rows cl₁ = calculate_confidence_intervals rows cl₂ ∧
    (lt, (((listMean (groupVals rows lt) : ℚ) : ℝ) - stdError (groupVals rows lt) * 1.96,
      ((listMean (groupVals rows lt) : ℚ) : ℝ) + stdError (groupVals rows lt) * 1.96)) ∈
      calculate_confidence_intervals rows cl₁ ∧
    ((listMean (groupVals rows lt) : ℚ) : ℝ) - stdError (groupVals rows lt) * 1.96 <
      ((listMean (groupVals rows lt) : ℚ) : ℝ) + stdError (groupVals rows lt) * 1.96 := by
  have hmemrow : lt ∈ rows.map ResultRow.lead_time := by
    obtain ⟨r, hrf, -⟩ := List.mem_map.mp ha
    have hrl : r.lead_time = lt := by simpa using List.of_mem_filter hrf
    exact List.mem_map.mpr ⟨r, List.mem_of_mem_filter hrf, hrl⟩
  refine ⟨rfl, ?_, ?_⟩
  · exact List.mem_map.mpr ⟨lt, (mem_uniqueFirst lt _).mpr hmemrow, rfl⟩
  · have hvar := sampleVar_pos ha hb hab
    have hlen : 2 ≤ (groupVals rows lt).length := one_lt_length_of_two_mem ha hb hab
    have hn : (0 : ℝ) < Real.sqrt ((groupVals rows lt).length : ℝ) := by
      refine Real.sqrt_pos.mpr ?_
      exact_mod_cast Nat.lt_of_lt_of_le (by omega) hlen
    have hstd : (0 : ℝ) < sampleStd (groupVals rows lt) := by
      refine Real.sqrt_pos.mpr ?_
      exact_mod_cast hvar
    have hse : (0 : ℝ) < stdError (groupVals rows lt) := div_pos hstd hn
    have hmargin : (0 : ℝ) < stdError (groupVals rows lt) * 1.96 :=
      mul_pos hse (by norm_num)
    linarith

/-- Witness for C9 on the two-row group `{1, 3}` with lead time 1. -/
theorem calculate_confidence_intervals_spec_witness :
    ((1 : ℚ) ∈ groupVals [⟨1, 1, 0⟩, ⟨1, 3, 1⟩] 1 ∧
      (3 : ℚ) ∈ groupVals [⟨1, 1, 0⟩, ⟨1, 3, 1⟩] 1 ∧ (1 : ℚ) ≠ 3) ∧
    (calculate_confidence_intervals [⟨1, 1, 0⟩, ⟨1, 3, 1⟩] (95/100) =
      calculate_confidence_intervals [⟨1, 1, 0⟩, ⟨1, 3, 1⟩] (1/2) ∧
    (1, (((listMean (groupVals [⟨1, 1, 0⟩, ⟨1, 3, 1⟩] 1) : ℚ) : ℝ) -
        stdError (groupVals [⟨1, 1, 0⟩, ⟨1, 3, 1⟩] 1) * 1.96,
      ((listMean (groupVals [⟨1, 1, 0⟩, ⟨1, 3, 1⟩] 1) : ℚ) : ℝ) +
        stdError (groupVals [⟨1, 1, 0⟩, ⟨1, 3, 1⟩] 1) * 1.96)) ∈
      calculate_confidence_intervals [⟨1, 1, 0⟩, ⟨1, 3, 1⟩] (95/100) ∧
    ((listMean (groupVals [⟨1, 1, 0⟩, ⟨1, 3, 1⟩] 1) : ℚ) : ℝ) -
        stdError (groupVals [⟨1, 1, 0⟩, ⟨1, 3, 1⟩] 1) * 1.96 <
      ((listMean (groupVals [⟨1, 1, 0⟩, ⟨1, 3, 1⟩] 1) : ℚ) : ℝ) +
        stdError (groupVals [⟨1, 1, 0⟩, ⟨1, 3, 1⟩] 1) * 1.96) :=
  ⟨⟨by decide, by decide, by decide⟩,
    calculate_confidence_intervals_spec [⟨1, 1, 0⟩, ⟨1, 3, 1⟩] (95/100) (1/2) 1 1 3
      (by decide) (by decide) (by decide)⟩

/-- C9 counterexample: a result table whose single group holds the equal
values 5 and 5 yields the degenerate interval `(5, 5)` — `lower < upper`
fails, refuting the claim's "lower < upper for every scenario". -/
theorem confidence_intervals_degenerate_cex :
    calculate_confidence_intervals [⟨1, 5, 0⟩, ⟨1, 5, 1⟩] (95/100) =
      [(1, ((5 : ℝ), (5 : ℝ)))] ∧ ¬((5 : ℝ) < 5) := by
  constructor
  · have h1 : uniqueFirst [1, 1] = [1] := by
      simp [uniqueFirst, uniqueFirstAux]
    have h2 : groupVals [⟨1, 5, 0⟩, ⟨1, 5, 1⟩] 1 = [5, 5] := by
      simp [groupVals]
    have h3 : listMean ([5, 5] : List ℚ) = 5 := by norm_num [listMean]
    have h4 : sampleVar ([5, 5] : List ℚ) = 0 := by norm_num [sampleVar, listMean]
    have h5 : stdError ([5, 5] : List ℚ) = 0 := by
      rw [stdError, sampleStd, h4]
      norm_num
    have hmap : calculate_confidence_intervals [⟨1, 5, 0⟩, ⟨1, 5, 1⟩] (95/100) =
        [((1 : ℤ), ciPair (groupVals [⟨1, 5, 0⟩, ⟨1, 5, 1⟩] 1))] := by
      simp only [calculate_confidence_intervals, h1, List.map_cons, List.map_nil]
    rw [hmap, h2]
    simp only [ciPair, h3, h5]
    norm_num
  · simp
